import Mathlib

/-!
Shallow embedding of the multiply_labs scheduler (src/soln.py and
src/read_csv.py) and proofs of its specified properties.

The Python program schedules processes against a fixed set of named
resources.  Each `Resource` keeps a FIFO queue of pending requests guarded
by a lock; a `Process` drives its operation list sequentially, waiting on a
`threading.Event` per submitted request; `read_process_from_csv` loads an
operation list from a CSV file; `schedule_processes` runs every process and
reports per-process downtime and the cluster makespan.

Locked critical sections of the Python code are modelled as single atomic
transitions; every data-carrying function is translated directly from the
source, with Python exceptions modelled as `Option`/`none`.
-/

namespace MultiplyLabs

/-- Operation: one `(resource_name, opcode, duration_ms)` row of a process's
schedule, as produced by `read_process_from_csv`. -/
structure Operation where
  resource_name : String
  opcode : String
  duration : Int
deriving DecidableEq, Repr

/-- Digits of a decimal numeral folded into a `Nat`
(`acc * 10 + digit`); used by the model of Python `int`. -/
def digitsToNat (cs : List Char) : Nat :=
  cs.foldl (fun acc c => acc * 10 + (c.toNat - 48)) 0

/-- Parse a nonempty all-digit character list, as Python `int` does for the
part after the optional sign. -/
def readDigits (cs : List Char) : Option Nat :=
  if cs ≠ [] ∧ cs.all Char.isDigit then some (digitsToNat cs) else none

/-- Strip leading and trailing whitespace characters, as Python `int`
does before parsing. -/
def stripWs (cs : List Char) : List Char :=
  ((cs.dropWhile Char.isWhitespace).reverse.dropWhile Char.isWhitespace).reverse

/-- Model of Python `int(s)` on decimal strings: optional surrounding
whitespace, optional sign, then a nonempty digit string; `none` models the
`ValueError` raised on anything else. -/
def pyInt (s : String) : Option Int :=
  match stripWs s.data with
  | [] => none
  | c :: cs =>
    if c = '-' then (readDigits cs).map (fun n => -(n : Int))
    else if c = '+' then (readDigits cs).map (fun n => (n : Int))
    else (readDigits (c :: cs)).map (fun n => (n : Int))

/-- Model of the body of the row loop of `read_process_from_csv`
(src/read_csv.py lines 9-11): `module, operation, duration = row` raises
`ValueError` unless the row has exactly three fields, and `int(duration)`
raises on a non-integer string; both are modelled as `none`. -/
def parseRow (row : List String) : Option Operation :=
  match row with
  | [m, o, dstr] => (pyInt dstr).map (fun d => ⟨m, o, d⟩)
  | _ => none

/-- Row loop of `read_process_from_csv`: parse each remaining row in file
order, stopping with an error at the first malformed row. -/
def readBody : List (List String) → Option (List Operation)
  | [] => some []
  | row :: rest =>
    match parseRow row with
    | none => none
    | some op => (readBody rest).map (fun ops => op :: ops)

/-- Model of `read_process_from_csv` (src/read_csv.py): the file is a list
of rows; `next(csv_reader)` discards the first row (raising on an empty
file, modelled as `none`) and the remaining rows become the operation list
in file order. -/
def read_process_from_csv : List (List String) → Option (List Operation)
  | [] => none
  | _ :: rows => readBody rows

/-- Process state (src/soln.py class `Process`): id, operation list, the
key set of the resource registry it was given, and the two timestamps,
absent until `run` sets them. -/
structure Process where
  process_id : Nat
  operations : List Operation
  resource_keys : List String
  start_time : Option Int
  end_time : Option Int
deriving DecidableEq, Repr

/-- Model of the Python statement `downtime[resource_type] -= duration` on
the association-list rendering of the downtime dict: `none` models the
`KeyError` raised when the key is absent. -/
def dictSub (m : List (String × Int)) (k : String) (d : Int) :
    Option (List (String × Int)) :=
  if m.any (fun e => e.1 == k) then
    some (m.map (fun e => if e.1 == k then (e.1, e.2 - d) else e))
  else none

/-- Loop of `Process.get_downtime` over the operation list, subtracting
each operation's duration from its resource's entry. -/
def downtimeFold : List Operation → List (String × Int) →
    Option (List (String × Int))
  | [], m => some m
  | op :: rest, m =>
    match dictSub m op.resource_name op.duration with
    | none => none
    | some m2 => downtimeFold rest m2

/-- Model of `Process.get_downtime` (src/soln.py lines 119-128): `{}` when
`end_time` is unset; otherwise a dict mapping every registry key to the
wall time, then decremented by each operation's duration.  `none` models
the `TypeError`/`KeyError` escapes of the Python body. -/
def Process.get_downtime (p : Process) : Option (List (String × Int)) :=
  match p.end_time with
  | none => some []
  | some te =>
    match p.start_time with
    | none => none
    | some ts =>
      downtimeFold p.operations (p.resource_keys.map (fun r => (r, te - ts)))

/-- Total duration the given process schedule charges to resource `r`:
the sum of `duration` over operations whose `resource_name` is `r`. -/
def resourceDuration : List Operation → String → Int
  | [], _ => 0
  | op :: rest, r =>
    (if op.resource_name = r then op.duration else 0) + resourceDuration rest r

/-- PendingRequest: one queue entry of a `Resource` — the tuple
`(process_id, operation, duration, event)` appended by `Resource.request`.
The event is an identifier of a `threading.Event`, or `none` for the first
entry of the fused arm pair. -/
structure PendingRequest where
  process_id : Nat
  opcode : String
  duration : Int
  event : Option Nat
deriving DecidableEq, Repr

/-- Resource state (src/soln.py class `Resource`).  `name`, `active`,
`stopping` and `queue` are the Python fields.  The remaining fields record
the observable history of the run: `executing` holds the requests handed to
the worker pool and not yet completed, and `submitted`, `dispatched`,
`completed` are the enqueue, dispatch and completion histories in order.
Each lock-protected critical section of the Python code is one atomic
transition on this state. -/
structure Resource where
  name : String
  active : Bool
  stopping : Bool
  queue : List PendingRequest
  executing : List PendingRequest
  submitted : List PendingRequest
  dispatched : List PendingRequest
  completed : List PendingRequest
deriving DecidableEq, Repr

/-- State built by `Resource.__init__`: idle, not stopping, empty queue. -/
def Resource.init (name : String) : Resource :=
  ⟨name, false, false, [], [], [], [], []⟩

/-- Model of `Resource.__process_next` (src/soln.py lines 38-52): return
unchanged when stopping or the queue is empty; otherwise mark the resource
active, pop the queue head and hand it to a worker (recorded in
`executing` and in the `dispatched` history). -/
def Resource.processNext (s : Resource) : Resource :=
  if s.stopping then s
  else
    match s.queue with
    | [] => s
    | r :: rest =>
      { s with active := true, queue := rest,
               executing := s.executing ++ [r],
               dispatched := s.dispatched ++ [r] }

/-- Tail of the `Resource.request` critical section: append the given
entries to the queue (recording them in the `submitted` history) and, as
in the Python `if not self.active` branch, dispatch if the resource is
idle. -/
def Resource.enqueue (s : Resource) (es : List PendingRequest) : Resource :=
  let s2 := { s with queue := s.queue ++ es, submitted := s.submitted ++ es }
  if s2.active then s2 else s2.processNext

/-- Model of `Resource.request` (src/soln.py lines 26-36), one atomic step
under the resource's condition lock.  On the `arm` resource with opcode
`0x500` it appends two contiguous entries — `(pid, 0x500, durations[0],
no event)` then `(pid, 0x600, durations[1], event)` — otherwise one entry
`(pid, operation, durations[0], event)`; then, if the resource is idle, it
dispatches.  `none` models the `IndexError` when `duration` is too short. -/
def Resource.request (s : Resource) (pid : Nat) (operation : String)
    (duration : List Int) (ev : Nat) : Option Resource :=
  let entries : Option (List PendingRequest) :=
    if s.name = "arm" ∧ operation = "0x500" then
      match duration with
      | d0 :: d1 :: _ =>
        some [⟨pid, "0x500", d0, none⟩, ⟨pid, "0x600", d1, some ev⟩]
      | _ => none
    else
      match duration with
      | d0 :: _ => some [⟨pid, operation, d0, some ev⟩]
      | [] => none
  entries.map s.enqueue

/-- Outcome of the simulated work inside a worker: whether
`time.sleep(duration / 1000)` returned or raised. -/
inductive ExecOutcome
  | success
  | failure
deriving DecidableEq, Repr

/-- Model of `Resource.__execute` (src/soln.py lines 54-60): the `finally`
block sets the event (when present) whatever the outcome, so the first
component — the list of events signalled, all the waiting runner can see —
does not depend on the outcome; the second component records whether the
future ends with an exception. -/
def Resource.execute (outcome : ExecOutcome) (ev : Option Nat) :
    List Nat × Bool :=
  (match ev with
   | some e => [e]
   | none => [],
   match outcome with
   | ExecOutcome.failure => true
   | ExecOutcome.success => false)

/-- Model of `Resource.__operation_completed` (src/soln.py lines 62-69),
run when the worker's future finishes with `failed` telling whether it
holds an exception.  On failure the Python code re-raises inside the
executor's done-callback thread, so the lock-protected bookkeeping below
never runs: modelled as `none`.  On success, one atomic step under the
lock: drop the finished request from `executing`, record it completed,
then clear `active` if the queue is empty or dispatch the new head. -/
def Resource.operationCompleted (s : Resource) (failed : Bool) :
    Option Resource :=
  if failed then none
  else
    match s.executing with
    | [] => none
    | r :: rest =>
      let s2 := { s with executing := rest, completed := s.completed ++ [r] }
      if s2.queue = [] then some { s2 with active := false }
      else some s2.processNext

/-- One observable transition of a resource: a `request` critical section,
a successful completion critical section, or `shutdown` raising the
`stopping` flag (src/soln.py lines 71-74). -/
inductive Resource.Step (s : Resource) : Resource → Prop
  | request (pid : Nat) (operation : String) (duration : List Int) (ev : Nat)
      (t : Resource) (h : Resource.request s pid operation duration ev = some t) :
      Resource.Step s t
  | complete (t : Resource) (h : Resource.operationCompleted s false = some t) :
      Resource.Step s t
  | stop : Resource.Step s { s with stopping := true }

/-- Reflexive-transitive closure of `Resource.Step`. -/
inductive Resource.Reaches : Resource → Resource → Prop
  | refl (s : Resource) : Resource.Reaches s s
  | tail {s t u : Resource} (hr : Resource.Reaches s t) (hs : Resource.Step t u) :
      Resource.Reaches s u

/-- Invariant of a resource's lifecycle: at most one request is executing;
an idle resource has no executing request; the dispatch history followed
by the current queue is exactly the submission history (FIFO dispatch);
and the completion history followed by the executing requests is exactly
the dispatch history (completions in dispatch order). -/
def ResourceInv (s : Resource) : Prop :=
  s.executing.length ≤ 1
  ∧ (s.active = false → s.executing = [])
  ∧ s.dispatched ++ s.queue = s.submitted
  ∧ s.completed ++ s.executing = s.dispatched

/-- Submission: one call to `Resource.request` issued by `Process.run` —
the target resource name, the opcode passed, and the duration list
(`[d]`, or `[d0, d1]` for the fused arm pair). -/
structure Submission where
  resource_name : String
  opcode : String
  durations : List Int
deriving DecidableEq, Repr

/-- Model of the `while` loop of `Process.run` (src/soln.py lines 96-108)
over the remaining operations.  Returns the submissions issued in order
and whether the loop finished normally: `false` records an exception —
`KeyError` when an operation names a resource outside the registry, or
`IndexError` when the fused arm/0x500 read-ahead `self.operations[i][2]`
runs past the end of the list.  The read-ahead consumes the following
entry but uses only its duration. -/
def runLoop (keys : List String) : List Operation → List Submission × Bool
  | [] => ([], true)
  | [op] =>
    if op.resource_name ∈ keys then
      if op.resource_name = "arm" ∧ op.opcode = "0x500" then ([], false)
      else ([⟨op.resource_name, op.opcode, [op.duration]⟩], true)
    else ([], false)
  | op :: nxt :: rest =>
    if op.resource_name ∈ keys then
      if op.resource_name = "arm" ∧ op.opcode = "0x500" then
        let r := runLoop keys rest
        (⟨op.resource_name, op.opcode, [op.duration, nxt.duration]⟩ :: r.1, r.2)
      else
        let r := runLoop keys (nxt :: rest)
        (⟨op.resource_name, op.opcode, [op.duration]⟩ :: r.1, r.2)
    else ([], false)

/-- Model of `Process.run` (src/soln.py lines 93-114) with the clock
readings `ts` (taken before the loop) and `te` (after it) as parameters:
`start_time` is always set, `end_time` only when the loop finishes
normally — any exception is caught by the surrounding `try`/`except` and
leaves `end_time` unset. -/
def Process.run (p : Process) (ts te : Int) : Process :=
  if (runLoop p.resource_keys p.operations).2 then
    { p with start_time := some ts, end_time := some te }
  else
    { p with start_time := some ts }

/-- Model of the cluster-time computation of `schedule_processes`
(src/soln.py lines 153-157): `min`/`max` over the set timestamps, `none`
modelling the `ValueError` of `min`/`max` on an empty sequence. -/
def clusterTime (ps : List Process) : Option Int :=
  match (ps.filterMap (fun p => p.start_time)).min?,
        (ps.filterMap (fun p => p.end_time)).max? with
  | some mn, some mx => some (mx - mn)
  | _, _ => none

theorem readBody_of_forall2 {rows : List (List String)} {ops : List Operation}
    (h : List.Forall₂ (fun row op => parseRow row = some op) rows ops) :
    readBody rows = some ops := by
  induction h with
  | nil => rfl
  | cons hrow _ ih => simp [readBody, hrow, ih]

theorem readBody_of_bad_row {rows : List (List String)}
    (h : ∃ row ∈ rows, parseRow row = none) : readBody rows = none := by
  induction rows with
  | nil => simp at h
  | cons row rest ih =>
    rcases h with ⟨bad, hmem, hbad⟩
    rcases List.mem_cons.mp hmem with hhd | htl
    · subst hhd; simp [readBody, hbad]
    · cases hpr : parseRow row <;> simp [readBody, hpr, ih ⟨bad, htl, hbad⟩]

/-- C7: `read_process_from_csv` skips exactly the first row and returns the
remaining rows, in file order, as `(resource_name, opcode, duration)`
triples; a row with the wrong column count or a non-integer duration makes
the whole load fail (`none`, the raised exception). -/
theorem read_process_from_csv_spec (header : List String)
    (rows : List (List String)) :
    (∀ ops : List Operation,
        List.Forall₂ (fun row op => parseRow row = some op) rows ops →
        read_process_from_csv (header :: rows) = some ops)
    ∧ ((∃ row ∈ rows, parseRow row = none) →
        read_process_from_csv (header :: rows) = none) := by
  constructor
  · intro ops h
    exact readBody_of_forall2 h
  · intro h
    exact readBody_of_bad_row h

/-- Witness for C7 at a concrete two-row file: the header row is dropped,
the body row is parsed, and a malformed variant fails. -/
theorem read_process_from_csv_spec_witness :
    read_process_from_csv
        [["resource_name", "opcode", "duration_ms"], ["inc", "0x100", "5"]] =
      some [⟨"inc", "0x100", 5⟩] :=
  (read_process_from_csv_spec [] [["inc", "0x100", "5"]]).1
    [⟨"inc", "0x100", 5⟩]
    (List.Forall₂.cons (by decide) List.Forall₂.nil)

theorem downtimeFold_eq (ops : List Operation) (m : List (String × Int))
    (h : ∀ op ∈ ops, op.resource_name ∈ m.map Prod.fst) :
    downtimeFold ops m =
      some (m.map (fun e => (e.1, e.2 - resourceDuration ops e.1))) := by
  induction ops generalizing m with
  | nil =>
    simp [downtimeFold, resourceDuration]
  | cons op rest ih =>
    have hmem : op.resource_name ∈ m.map Prod.fst := h op (by simp)
    have hany : m.any (fun e => e.1 == op.resource_name) = true := by
      rw [List.any_eq_true]
      obtain ⟨e, he, hfst⟩ := List.mem_map.mp hmem
      exact ⟨e, he, by simp [hfst]⟩
    have hkeys :
        (m.map (fun e =>
          if e.1 == op.resource_name then (e.1, e.2 - op.duration) else e)).map
            Prod.fst = m.map Prod.fst := by
      rw [List.map_map]
      apply List.map_congr_left
      intro e _
      by_cases hc : e.1 = op.resource_name <;> simp [Function.comp, hc]
    simp only [downtimeFold, dictSub, if_pos hany]
    rw [ih _ (by rw [hkeys]; intro o ho; exact h o (by simp [ho]))]
    rw [List.map_map]
    apply congrArg
    apply List.map_congr_left
    intro e _
    by_cases hc : e.1 = op.resource_name
    · simp only [Function.comp, hc, beq_self_eq_true, if_pos, resourceDuration,
        if_pos rfl]
      refine congrArg _ ?_
      ring
    · have hbeq : (e.1 == op.resource_name) = false := by
        simpa using hc
      simp only [Function.comp, resourceDuration, hbeq, Bool.false_eq_true,
        if_false]
      rw [if_neg (fun hx => hc hx.symm)]
      refine congrArg _ ?_
      ring

/-- C1 amended: for a process whose `end_time` is set and all of whose
operations name resources of the registry, `get_downtime` returns a map
whose keys are exactly the registry's resource names, each mapped to the
wall time `end_time - start_time` minus the total duration of this
process's operations on that resource (so an unused resource keeps the
full wall time).  The restriction is forced: an entry consumed by the
fused arm/0x500 read-ahead is never looked up in the registry, so a
finished process can hold an out-of-registry operation, on which
`get_downtime` raises `KeyError` instead of returning a map. -/
theorem get_downtime_spec (p : Process) (ts te : Int)
    (hs : p.start_time = some ts) (he : p.end_time = some te)
    (hops : ∀ op ∈ p.operations, op.resource_name ∈ p.resource_keys) :
    p.get_downtime =
      some (p.resource_keys.map
        (fun r => (r, (te - ts) - resourceDuration p.operations r))) := by
  simp only [Process.get_downtime, he, hs]
  rw [downtimeFold_eq]
  · rw [List.map_map]
    rfl
  · intro op hop
    rw [List.map_map]
    simpa [Function.comp] using hops op hop

/-- Witness for C1: a process with one 5 ms operation on `inc`, registry
`[inc, arm]`, wall time 90 ms; `inc` gets 85, the unused `arm` gets 90. -/
theorem get_downtime_spec_witness :
    Process.get_downtime
        ⟨0, [⟨"inc", "0x100", 5⟩], ["inc", "arm"], some 10, some 100⟩ =
      some [("inc", 85), ("arm", 90)] :=
  (get_downtime_spec
      ⟨0, [⟨"inc", "0x100", 5⟩], ["inc", "arm"], some 10, some 100⟩
      10 100 rfl rfl (by decide)).trans (by decide)

/-- C1 as literally stated is false on the code: the fused arm/0x500
read-ahead consumes the following schedule entry without looking its
resource up in the registry, so a process whose schedule is
`[(arm, 0x500, 5), (zzz, 0x300, 7)]` finishes normally (`end_time` is
set), yet `get_downtime` then hits `downtime[zzz] -= 7` on a key the
registry never contained and raises `KeyError` (modelled as `none`)
instead of returning the claimed map. -/
theorem get_downtime_keyerror_counterexample :
    (Process.run ⟨0, [⟨"arm", "0x500", 5⟩, ⟨"zzz", "0x300", 7⟩],
        ["arm"], none, none⟩ 0 20).end_time = some 20
    ∧ (Process.run ⟨0, [⟨"arm", "0x500", 5⟩, ⟨"zzz", "0x300", 7⟩],
        ["arm"], none, none⟩ 0 20).get_downtime = none := by
  decide

/-- C8: for a process whose `end_time` is not yet set, `get_downtime`
returns the empty map. -/
theorem get_downtime_running (p : Process) (h : p.end_time = none) :
    p.get_downtime = some [] := by
  unfold Process.get_downtime
  rw [h]

/-- Witness for C8 at a concrete never-completed process. -/
theorem get_downtime_running_witness :
    Process.get_downtime ⟨0, [⟨"inc", "0x100", 5⟩], ["inc"], some 3, none⟩ =
      some [] :=
  get_downtime_running ⟨0, [⟨"inc", "0x100", 5⟩], ["inc"], some 3, none⟩ rfl

theorem processNext_submitted (s : Resource) :
    (s.processNext).submitted = s.submitted := by
  unfold Resource.processNext
  split
  · rfl
  · split <;> rfl

theorem processNext_name (s : Resource) : (s.processNext).name = s.name := by
  unfold Resource.processNext
  split
  · rfl
  · split <;> rfl

theorem enqueue_submitted (s : Resource) (es : List PendingRequest) :
    (s.enqueue es).submitted = s.submitted ++ es := by
  simp only [Resource.enqueue]
  split
  · rfl
  · rw [processNext_submitted]

theorem enqueue_name (s : Resource) (es : List PendingRequest) :
    (s.enqueue es).name = s.name := by
  simp only [Resource.enqueue]
  split
  · rfl
  · rw [processNext_name]

theorem operationCompleted_submitted {s t : Resource}
    (heq : s.operationCompleted false = some t) : t.submitted = s.submitted := by
  simp only [Resource.operationCompleted, Bool.false_eq_true, if_false] at heq
  split at heq
  · exact Option.noConfusion heq
  · split at heq
    · rw [← Option.some.inj heq]
    · rw [← Option.some.inj heq, processNext_submitted]

theorem operationCompleted_name {s t : Resource}
    (heq : s.operationCompleted false = some t) : t.name = s.name := by
  simp only [Resource.operationCompleted, Bool.false_eq_true, if_false] at heq
  split at heq
  · exact Option.noConfusion heq
  · split at heq
    · rw [← Option.some.inj heq]
    · rw [← Option.some.inj heq, processNext_name]

theorem init_inv (name : String) : ResourceInv (Resource.init name) := by
  refine ⟨?_, ?_, ?_, ?_⟩ <;> simp [Resource.init]

theorem inv_enqueue {s : Resource} (h : ResourceInv s)
    (es : List PendingRequest) : ResourceInv (s.enqueue es) := by
  obtain ⟨h1, h2, h3, h4⟩ := h
  simp only [Resource.enqueue]
  split
  next hact =>
    refine ⟨h1, ?_, ?_, h4⟩
    · intro hf
      exact h2 hf
    · rw [← List.append_assoc, h3]
  next hact =>
    have hex : s.executing = [] := h2 (by simpa using hact)
    simp only [Resource.processNext]
    split
    · exact ⟨h1, fun _ => hex, by rw [← List.append_assoc, h3], h4⟩
    · split
      next hq => exact ⟨h1, fun _ => hex, by rw [← List.append_assoc, h3], h4⟩
      next r rest hq =>
        refine ⟨by simp [hex], ?_, ?_, ?_⟩
        · intro hf
          exact absurd hf (by simp)
        · have hsub : s.dispatched ++ (r :: rest) = s.submitted ++ es := by
            rw [← hq, ← List.append_assoc, h3]
          simpa [List.append_assoc] using hsub
        · rw [← List.append_assoc, h4]

theorem inv_operationCompleted {s t : Resource} (h : ResourceInv s)
    (heq : s.operationCompleted false = some t) : ResourceInv t := by
  obtain ⟨h1, h2, h3, h4⟩ := h
  simp only [Resource.operationCompleted, Bool.false_eq_true, if_false] at heq
  split at heq
  · exact Option.noConfusion heq
  rename_i r rest hex
  have hrest : rest = [] := by
    rw [hex] at h1
    cases rest with
    | nil => rfl
    | cons a b => simp at h1
  subst hrest
  rw [hex] at h4
  split at heq
  next hq =>
    rw [← Option.some.inj heq]
    refine ⟨by simp, fun _ => rfl, h3, ?_⟩
    simpa using h4
  next hq =>
    rw [← Option.some.inj heq]
    simp only [Resource.processNext]
    split
    · exact ⟨by simp, fun _ => rfl, h3, by simpa using h4⟩
    · split
      next hq2 => exact ⟨by simp, fun _ => rfl, h3, by simpa using h4⟩
      next q qrest hq2 =>
        refine ⟨by simp, ?_, ?_, ?_⟩
        · intro hf
          exact absurd hf (by simp)
        · have hsub : s.dispatched ++ (q :: qrest) = s.submitted := by
            rw [← hq2]
            exact h3
          simpa [List.append_assoc] using hsub
        · rw [← h4]
          simp

theorem inv_step {s t : Resource} (h : ResourceInv s)
    (hst : Resource.Step s t) : ResourceInv t := by
  cases hst with
  | request pid operation duration ev t heq =>
    simp only [Resource.request] at heq
    obtain ⟨es, _, ht⟩ := Option.map_eq_some'.mp heq
    rw [← ht]
    exact inv_enqueue h es
  | complete t heq => exact inv_operationCompleted h heq
  | stop => exact h

theorem inv_reaches {s t : Resource} (h : ResourceInv s)
    (hr : Resource.Reaches s t) : ResourceInv t := by
  induction hr with
  | refl => exact h
  | tail hr hs ih => exact inv_step ih hs

theorem reaches_trans {s t u : Resource} (h1 : Resource.Reaches s t)
    (h2 : Resource.Reaches t u) : Resource.Reaches s u := by
  induction h2 with
  | refl => exact h1
  | tail hr hs ih => exact Resource.Reaches.tail ih hs

theorem step_name {s t : Resource} (hst : Resource.Step s t) :
    t.name = s.name := by
  cases hst with
  | request pid operation duration ev t heq =>
    simp only [Resource.request] at heq
    obtain ⟨es, _, ht⟩ := Option.map_eq_some'.mp heq
    rw [← ht]
    exact enqueue_name s es
  | complete t heq => exact operationCompleted_name heq
  | stop => rfl

theorem reaches_name {s t : Resource} (hr : Resource.Reaches s t) :
    t.name = s.name := by
  induction hr with
  | refl => rfl
  | tail hr hs ih => rw [step_name hs, ih]

theorem step_submitted_mono {s t : Resource} (hst : Resource.Step s t) :
    ∃ u, t.submitted = s.submitted ++ u := by
  cases hst with
  | request pid operation duration ev t heq =>
    simp only [Resource.request] at heq
    obtain ⟨es, _, ht⟩ := Option.map_eq_some'.mp heq
    exact ⟨es, by rw [← ht, enqueue_submitted]⟩
  | complete t heq => exact ⟨[], by rw [operationCompleted_submitted heq, List.append_nil]⟩
  | stop => exact ⟨[], by rw [List.append_nil]⟩

theorem reaches_submitted_mono {s t : Resource} (hr : Resource.Reaches s t) :
    ∃ u, t.submitted = s.submitted ++ u := by
  induction hr with
  | refl => exact ⟨[], by rw [List.append_nil]⟩
  | tail hr hs ih =>
    obtain ⟨u1, hu1⟩ := ih
    obtain ⟨u2, hu2⟩ := step_submitted_mono hs
    exact ⟨u1 ++ u2, by rw [hu2, hu1, List.append_assoc]⟩

/-- C5: at most one request popped from a resource's queue is executing at
any instant — in every state reachable from a fresh resource the size-1
worker pool holds at most one request, the dispatcher having handed one
over only when the resource was idle, and the dispatch-next decision being
taken atomically with recording completion under the resource's lock. -/
theorem resource_mutual_exclusion (name : String) (s : Resource)
    (h : Resource.Reaches (Resource.init name) s) :
    s.executing.length ≤ 1 :=
  (inv_reaches (init_inv name) h).1

/-- Witness for C5 on the state reached by one request on a fresh
resource. -/
theorem resource_mutual_exclusion_witness :
    (⟨"inc", true, false, [], [⟨0, "0x100", 5, some 1⟩],
        [⟨0, "0x100", 5, some 1⟩], [⟨0, "0x100", 5, some 1⟩],
        []⟩ : Resource).executing.length ≤ 1 :=
  resource_mutual_exclusion ("inc") _
    (Resource.Reaches.tail (Resource.Reaches.refl _)
      (Resource.Step.request 0 ("0x100") [5] 1 _ (by decide)))

/-- C4: per-resource FIFO — in every reachable state the dispatch history
followed by the queue is exactly the submission history (requests are
appended at the tail and the dispatcher pops the head), and the completion
history followed by the in-flight requests is exactly the dispatch
history, so requests complete in submission order across all processes. -/
theorem resource_fifo (name : String) (s : Resource)
    (h : Resource.Reaches (Resource.init name) s) :
    s.dispatched ++ s.queue = s.submitted
    ∧ s.completed ++ s.executing = s.dispatched :=
  ⟨(inv_reaches (init_inv name) h).2.2.1, (inv_reaches (init_inv name) h).2.2.2⟩

/-- Witness for C4 on the state reached by two requests from different
processes on a fresh resource. -/
theorem resource_fifo_witness :
    (⟨"out", true, false, [⟨1, "0x200", 3, some 2⟩], [⟨0, "0x100", 5, some 1⟩],
        [⟨0, "0x100", 5, some 1⟩, ⟨1, "0x200", 3, some 2⟩],
        [⟨0, "0x100", 5, some 1⟩], []⟩ : Resource).dispatched
        ++ (⟨"out", true, false, [⟨1, "0x200", 3, some 2⟩],
              [⟨0, "0x100", 5, some 1⟩],
              [⟨0, "0x100", 5, some 1⟩, ⟨1, "0x200", 3, some 2⟩],
              [⟨0, "0x100", 5, some 1⟩], []⟩ : Resource).queue
      = [⟨0, "0x100", 5, some 1⟩, ⟨1, "0x200", 3, some 2⟩]
    ∧ ([] : List PendingRequest) ++ [⟨0, "0x100", 5, some 1⟩]
      = [⟨0, "0x100", 5, some 1⟩] :=
  resource_fifo ("out") _
    (Resource.Reaches.tail
      (Resource.Reaches.tail (Resource.Reaches.refl _)
        (Resource.Step.request 0 ("0x100") [5] 1
          (⟨"out", true, false, [], [⟨0, "0x100", 5, some 1⟩],
            [⟨0, "0x100", 5, some 1⟩], [⟨0, "0x100", 5, some 1⟩], []⟩ : Resource)
          (by decide)))
      (Resource.Step.request 1 ("0x200") [3] 2 _ (by decide)))

/-- C2: a request on the arm resource with opcode 0x500 atomically appends
exactly two contiguous entries — durations[0] with no completion signal,
then durations[1] carrying the caller's signal — and in every later
reachable state the two entries occupy consecutive dispatch slots, so no
other process's request on that resource is interleaved between the
pair's two steps. -/
theorem arm_fused_pair_atomic (s : Resource)
    (h0 : Resource.Reaches (Resource.init ("arm")) s)
    (pid : Nat) (d0 d1 : Int) (ds : List Int) (ev : Nat) (s2 : Resource)
    (hreq : Resource.request s pid ("0x500") (d0 :: d1 :: ds) ev = some s2) :
    s2.submitted = s.submitted ++
        [⟨pid, "0x500", d0, none⟩, ⟨pid, "0x600", d1, some ev⟩]
    ∧ ∀ t, Resource.Reaches s2 t →
        t.submitted[s.submitted.length]?
            = some ⟨pid, "0x500", d0, none⟩
        ∧ t.submitted[s.submitted.length + 1]?
            = some ⟨pid, "0x600", d1, some ev⟩
        ∧ (s.submitted.length + 1 < t.dispatched.length →
            t.dispatched[s.submitted.length]?
                = some ⟨pid, "0x500", d0, none⟩
            ∧ t.dispatched[s.submitted.length + 1]?
                = some ⟨pid, "0x600", d1, some ev⟩) := by
  have hname : s.name = "arm" := by
    rw [reaches_name h0]
    rfl
  have hpair : Resource.request s pid ("0x500") (d0 :: d1 :: ds) ev =
      some (s.enqueue
        [⟨pid, "0x500", d0, none⟩, ⟨pid, "0x600", d1, some ev⟩]) := by
    simp [Resource.request, hname]
  rw [hpair] at hreq
  have hs2 := (Option.some.inj hreq).symm
  subst hs2
  have hsub := enqueue_submitted s
    [⟨pid, "0x500", d0, none⟩, ⟨pid, "0x600", d1, some ev⟩]
  refine ⟨hsub, ?_⟩
  intro t ht
  have hreach : Resource.Reaches (Resource.init ("arm")) t :=
    reaches_trans
      (Resource.Reaches.tail h0
        (Resource.Step.request pid ("0x500") (d0 :: d1 :: ds) ev _ hpair)) ht
  have hinv := inv_reaches (init_inv ("arm")) hreach
  obtain ⟨u, hu⟩ := reaches_submitted_mono ht
  rw [hsub] at hu
  have hform : t.submitted = s.submitted ++
      (⟨pid, "0x500", d0, none⟩ :: ⟨pid, "0x600", d1, some ev⟩ :: u) := by
    rw [hu]
    simp
  have he1 : t.submitted[s.submitted.length]?
      = some ⟨pid, "0x500", d0, none⟩ := by
    rw [hform, List.getElem?_append]
    simp
  have he2 : t.submitted[s.submitted.length + 1]?
      = some ⟨pid, "0x600", d1, some ev⟩ := by
    rw [hform, List.getElem?_append]
    simp
  refine ⟨he1, he2, ?_⟩
  intro hlt
  have hdq : t.dispatched ++ t.queue = t.submitted := hinv.2.2.1
  have hd : ∀ k, k < t.dispatched.length →
      t.dispatched[k]? = t.submitted[k]? := by
    intro k hk
    rw [← hdq, List.getElem?_append, if_pos hk]
  exact ⟨(hd _ (by omega)).trans he1, (hd _ hlt).trans he2⟩

/-- Witness for C2: a fused request on a fresh arm resource appends the
two entries contiguously to the submission history. -/
theorem arm_fused_pair_atomic_witness :
    (Resource.enqueue (Resource.init ("arm"))
        [⟨0, "0x500", 1, none⟩, ⟨0, "0x600", 2, some 7⟩]).submitted =
      (Resource.init ("arm")).submitted ++
        [⟨0, "0x500", 1, none⟩, ⟨0, "0x600", 2, some 7⟩] :=
  (arm_fused_pair_atomic (Resource.init ("arm")) (Resource.Reaches.refl _)
      0 1 2 [] 7 _ (by decide)).1

/-- C3 as stated is refuted by the code: a worker failure is not attached
to the completion signal — `__execute` signals the bare event identically
on success and failure (the signal carries no failure information), the
exception lands in the future instead, and `__operation_completed`
re-raises it inside the executor's background done-callback context, so
the lock-protected completion handling never runs there. -/
theorem worker_failure_raised_in_background :
    (∀ ev : Option Nat,
        (Resource.execute ExecOutcome.failure ev).1 =
          (Resource.execute ExecOutcome.success ev).1)
    ∧ (Resource.execute ExecOutcome.failure (some 0)).2 = true
    ∧ ∀ s : Resource, Resource.operationCompleted s true = none :=
  ⟨fun _ => rfl, rfl, fun _ => rfl⟩

theorem runLoop_append (keys : List String) (front extra : List Operation) :
    (runLoop keys front).2 = true →
    runLoop keys (front ++ extra) =
      ((runLoop keys front).1 ++ (runLoop keys extra).1,
        (runLoop keys extra).2) := by
  induction front using runLoop.induct with
  | keys => exact keys
  | case1 =>
    intro _
    simp [runLoop]
  | case2 op hmem hfused =>
    intro hfalse
    simp [runLoop, hmem, hfused] at hfalse
  | case3 op hmem hnf =>
    intro _
    cases extra with
    | nil => simp [runLoop, hmem, hnf]
    | cons e es => simp [runLoop, hmem, hnf]
  | case4 op hmem =>
    intro hfalse
    simp [runLoop, hmem] at hfalse
  | case5 op nxt rest hmem hfused ih =>
    intro h
    obtain ⟨hres, hopc⟩ := hfused
    rw [hres] at hmem
    have h2 : (runLoop keys rest).2 = true := by
      simpa [runLoop, hres, hopc, hmem] using h
    simp [runLoop, hres, hopc, hmem, ih h2]
  | case6 op nxt rest hmem hnf ih =>
    intro h
    have h2 : (runLoop keys (nxt :: rest)).2 = true := by
      simpa [runLoop, hmem, hnf] using h
    have ih2 := ih h2
    simp only [List.cons_append] at ih2
    simp [runLoop, hmem, hnf, ih2]
  | case7 op nxt rest hmem =>
    intro hfalse
    simp [runLoop, hmem] at hfalse

/-- C9: the fused read-ahead uses only the duration of the consumed next
entry: whatever operation `(x, y, d)` follows `(arm, 0x500, d0)` in the
schedule, the runner submits `arm/0x500` with durations `[d0, d]`, and the
dispatcher enqueues the consumed step as the literal opcode `0x600` on the
arm resource with duration `d` — the next entry's own resource name and
opcode are never used. -/
theorem fused_readahead (keys : List String) (d0 d : Int) (x y : String)
    (rest : List Operation) (s : Resource) (pid ev : Nat)
    (hk : "arm" ∈ keys)
    (h0 : Resource.Reaches (Resource.init ("arm")) s) :
    (runLoop keys (⟨"arm", "0x500", d0⟩ :: ⟨x, y, d⟩ :: rest)).1
      = ⟨"arm", "0x500", [d0, d]⟩ :: (runLoop keys rest).1
    ∧ ∃ s2, Resource.request s pid ("0x500") [d0, d] ev = some s2
        ∧ s2.submitted = s.submitted ++
            [⟨pid, "0x500", d0, none⟩, ⟨pid, "0x600", d, some ev⟩] := by
  have hname : s.name = "arm" := by
    rw [reaches_name h0]
    rfl
  constructor
  · simp [runLoop, hk]
  · refine ⟨s.enqueue [⟨pid, "0x500", d0, none⟩, ⟨pid, "0x600", d, some ev⟩],
      ?_, enqueue_submitted s _⟩
    simp [Resource.request, hname]

/-- Witness for C9: the entry `(inc, 0x300, 2)` following `(arm, 0x500, 1)`
is consumed and its duration executed as `arm/0x600`. -/
theorem fused_readahead_witness :
    (runLoop ["arm"] [⟨"arm", "0x500", 1⟩, ⟨"inc", "0x300", 2⟩]).1
      = ⟨"arm", "0x500", [1, 2]⟩ :: (runLoop ["arm"] []).1
    ∧ ∃ s2, Resource.request (Resource.init ("arm")) 0 ("0x500") [1, 2] 7
          = some s2
        ∧ s2.submitted = (Resource.init ("arm")).submitted ++
            [⟨0, "0x500", 1, none⟩, ⟨0, "0x600", 2, some 7⟩] :=
  fused_readahead ["arm"] 1 2 ("inc") ("0x300") [] (Resource.init ("arm")) 0 7
    (by decide) (Resource.Reaches.refl _)

/-- C10: when the schedule ends with an `(arm, 0x500, d)` entry reached by
the runner as a begin step, the read-ahead indexes past the end of the
operation list; the error is caught inside `run`, `end_time` is never set,
the final submission never happens, and `get_downtime` then returns the
empty map. -/
theorem run_dangling_fused (p : Process) (front : List Operation)
    (subs : List Submission) (d : Int) (ts te : Int)
    (hops : p.operations = front ++ [⟨"arm", "0x500", d⟩])
    (hfront : runLoop p.resource_keys front = (subs, true))
    (hmem : "arm" ∈ p.resource_keys)
    (hend : p.end_time = none) :
    runLoop p.resource_keys p.operations = (subs, false)
    ∧ (p.run ts te).end_time = none
    ∧ (p.run ts te).get_downtime = some [] := by
  have hone : runLoop p.resource_keys [⟨"arm", "0x500", d⟩] = ([], false) := by
    simp [runLoop, hmem]
  have hcat := runLoop_append p.resource_keys front [⟨"arm", "0x500", d⟩]
    (by rw [hfront])
  have hfull : runLoop p.resource_keys p.operations = (subs, false) := by
    rw [hops, hcat, hfront, hone]
    simp
  refine ⟨hfull, ?_, ?_⟩
  · simp [Process.run, hfull, hend]
  · simp [Process.run, hfull, Process.get_downtime, hend]

/-- Witness for C10: a schedule consisting only of `(arm, 0x500, 5)`
submits nothing, leaves `end_time` unset and yields an empty downtime
map. -/
theorem run_dangling_fused_witness :
    runLoop ["arm"] [⟨"arm", "0x500", 5⟩] = ([], false)
    ∧ (Process.run ⟨0, [⟨"arm", "0x500", 5⟩], ["arm"], none, none⟩ 0 9).end_time
        = none
    ∧ (Process.run ⟨0, [⟨"arm", "0x500", 5⟩], ["arm"], none, none⟩ 0 9).get_downtime
        = some [] :=
  run_dangling_fused ⟨0, [⟨"arm", "0x500", 5⟩], ["arm"], none, none⟩ [] [] 5 0 9
    rfl rfl (by decide) rfl

theorem filterMap_eq_map_getD (ps : List Process) (f : Process → Option Int)
    (h : ∀ p ∈ ps, (f p).isSome) :
    ps.filterMap f = ps.map (fun p => (f p).getD 0) := by
  induction ps with
  | nil => rfl
  | cons a l ih =>
    have ha := h a (by simp)
    obtain ⟨v, hv⟩ := Option.isSome_iff_exists.mp ha
    simp [List.filterMap_cons, hv, ih (fun p hp => h p (by simp [hp]))]

/-- C6: once every process has finished (both timestamps set), the
reported cluster makespan is the maximum `end_time` over all processes
minus the minimum `start_time` over all processes. -/
theorem clusterTime_spec (ps : List Process) (hne : ps ≠ [])
    (h : ∀ p ∈ ps, p.start_time.isSome ∧ p.end_time.isSome) :
    clusterTime ps =
      some (((ps.map (fun p => p.end_time.getD 0)).max?.getD 0)
        - ((ps.map (fun p => p.start_time.getD 0)).min?.getD 0)) := by
  have hs : ps.filterMap (fun p => p.start_time)
      = ps.map (fun p => p.start_time.getD 0) :=
    filterMap_eq_map_getD ps _ (fun p hp => (h p hp).1)
  have he : ps.filterMap (fun p => p.end_time)
      = ps.map (fun p => p.end_time.getD 0) :=
    filterMap_eq_map_getD ps _ (fun p hp => (h p hp).2)
  obtain ⟨mn, hmn⟩ : ∃ mn, (ps.map (fun p => p.start_time.getD 0)).min? = some mn := by
    cases hx : (ps.map (fun p => p.start_time.getD 0)).min? with
    | some mn => exact ⟨mn, rfl⟩
    | none =>
      rw [List.min?_eq_none_iff, List.map_eq_nil_iff] at hx
      exact absurd hx hne
  obtain ⟨mx, hmx⟩ : ∃ mx, (ps.map (fun p => p.end_time.getD 0)).max? = some mx := by
    cases hx : (ps.map (fun p => p.end_time.getD 0)).max? with
    | some mx => exact ⟨mx, rfl⟩
    | none =>
      rw [List.max?_eq_none_iff, List.map_eq_nil_iff] at hx
      exact absurd hx hne
  unfold clusterTime
  rw [hs, he, hmn, hmx]
  simp

/-- Witness for C6 on two finished processes: makespan 20 - 2 = 18. -/
theorem clusterTime_spec_witness :
    clusterTime [⟨0, [], ["arm"], some 2, some 10⟩,
        ⟨1, [], ["arm"], some 3, some 20⟩] = some 18 :=
  (clusterTime_spec
      [⟨0, [], ["arm"], some 2, some 10⟩, ⟨1, [], ["arm"], some 3, some 20⟩]
      (by decide) (by decide)).trans (by decide)

end MultiplyLabs
